import Mathlib

/-!
Verification of the callback-translation layer of `src/pacman/pac.py`
(class `Pac`): event deduplication (`queue_event`), transaction
finalization (`finalize`), install target resolution (`do_install`,
`find_sync_package`, `get_group_pkgs`), and the progress/download
callbacks (`cb_progress`, `cb_dl`).

The Python module is shallowly embedded: the mutable fields that
`Pac.__init__` sets up become a `PacState` record threaded explicitly,
the bounded `multiprocessing` queue becomes a list with a capacity
parameter (`put_nowait` appends when there is room and silently drops
otherwise, as the `except queue.Full: pass` of the source does), and
`sys.exit(1)` / `callback_queue.join()` become the `exited` / `joined`
fields of the state.
-/

set_option autoImplicit false

namespace Cnchi

/-- An event payload as it appears in `queue_event(event_type, event_text)`:
the source passes strings (`'target'`, `'action'`, ...) and Python numbers
(`percent / 100`, `i / n`, the integer download `progress`).  Python numeric
equality (`0 == 0.0`) is modelled by embedding every number as a rational. -/
inductive EvPayload where
  | str (s : String)
  | num (q : ℚ)
  deriving DecidableEq, Repr

/-- A queued event: `(event_type, event_text)` as pushed by `put_nowait`. -/
abbrev Event := String × EvPayload

/-- Lookup in the `self.last_event` dict (`event_type in self.last_event`
followed by `self.last_event[event_type]`). -/
def lookupEv : List (String × EvPayload) → String → Option EvPayload
  | [], _ => none
  | (k, v) :: rest, t => if k = t then some v else lookupEv rest t

/-- Assignment `self.last_event[event_type] = event_text` on the dict,
modelled as an association list: replace the existing binding in place,
or append a new one. -/
def setEv : List (String × EvPayload) → String → EvPayload → List (String × EvPayload)
  | [], t, x => [(t, x)]
  | (k, v) :: rest, t, x => if k = t then (t, x) :: rest else (k, v) :: setEv rest t x

/-- The mutable state of a `Pac` instance (fields set in `Pac.__init__`,
lines 41-56), together with the queue contents and the process status.

`last_dl_progress` is initialised to `None` in the source, but the first
`cb_dl` call always takes the new-file branch (`None != filename`) and
resets it to `0` before it is ever read, so it is modelled as `0`. -/
structure PacState where
  last_target : Option String
  last_percent : ℤ
  last_i : ℤ
  last_dl_filename : Option String
  last_dl_progress : ℤ
  last_dl_total : Option ℤ
  last_event : List (String × EvPayload)
  queue : List Event
  joined : Bool
  exited : Option ℤ
  deriving DecidableEq, Repr

/-- The state right after `Pac.__init__`: `last_target = None`,
`last_percent = 100`, `last_i = -1`, download trackers unset,
`last_event = {}`, an empty queue, process running. -/
def initState : PacState :=
  { last_target := none
    last_percent := 100
    last_i := -1
    last_dl_filename := none
    last_dl_progress := 0
    last_dl_total := none
    last_event := []
    queue := []
    joined := false
    exited := none }

/-- Python `"%s" % event_text`: strings render as themselves, numbers by
their printed form (only ever used for the `error` augmentation). -/
def payloadStr : EvPayload → String
  | .str s => s
  | .num q => toString q

/-- The `error` augmentation of lines 186-193:
`event_text = "%s: %s in %s:%i" % (event_text, f.co_name, f.co_filename, f.co_firstlineno)`.
The caller-frame part (`f.co_name`, `f.co_filename`, `f.co_firstlineno`) is
runtime introspection, so it is abstracted into the `frame` parameter. -/
def pushText (frame : String) (event_type : String) (x : EvPayload) : EvPayload :=
  if event_type = "error" then .str (payloadStr x ++ ": " ++ frame) else x

/-- The tail of `queue_event` after the deduplication gate (lines 184-204):
record the text in `last_event`, augment `error` texts, `put_nowait` the
event (appended when the queue has room, silently dropped otherwise —
`except queue.Full: pass`), and for `error` events `join` the queue and
`sys.exit(1)`. -/
def queue_event_push (frame : String) (cap : ℕ) (st : PacState)
    (event_type : String) (event_text : EvPayload) : PacState :=
  let st1 := { st with last_event := setEv st.last_event event_type event_text }
  let text1 := pushText frame event_type event_text
  let st2 := if st1.queue.length < cap
    then { st1 with queue := st1.queue ++ [(event_type, text1)] }
    else st1
  if event_type = "error" then { st2 with joined := true, exited := some 1 } else st2

/-- Model of `Pac.queue_event` (lines 178-204): if `last_event` already records
`event_type → event_text`, return at once (do not repeat the same event);
otherwise fall through to `queue_event_push`. -/
def queue_event (frame : String) (cap : ℕ) (st : PacState)
    (event_type : String) (event_text : EvPayload) : PacState :=
  match lookupEv st.last_event event_type with
  | some prev =>
      if prev = event_text then st
      else queue_event_push frame cap st event_type event_text
  | none => queue_event_push frame cap st event_type event_text

/-- Run a sequence of `queue_event` calls.  Once `sys.exit` has been
reached no further call happens (the `SystemExit` propagates out of the
producer), which the `exited` guard models. -/
def runEvents (frame : String) (cap : ℕ) : PacState → List Event → PacState
  | st, [] => st
  | st, (t, x) :: rest =>
    if st.exited.isSome then st
    else runEvents frame cap (queue_event frame cap st t x) rest

/-- The texts of the queued events of one type, in queue (delivery) order. -/
def typeTexts (q : List Event) (t : String) : List EvPayload :=
  (q.filter (fun e => e.1 = t)).map Prod.snd

/-- One `self.queue_event(t, x)` call made from inside a callback: the state
is updated through `queue_event` and the call itself is logged, so that the
emissions a callback makes (before deduplication) are visible. -/
def emitLog (frame : String) (cap : ℕ) (stc : PacState × List Event)
    (t : String) (x : EvPayload) : PacState × List Event :=
  (queue_event frame cap stc.1 t x, stc.2 ++ [(t, x)])

/-- Model of `Pac.cb_progress` (lines 275-294).  Returns the updated state together
with the list of `queue_event` calls the sample produced.  Python's true
divisions `percent / 100` and `i / n` are exact rationals (`i / n` with
`n = 0` would raise `ZeroDivisionError`; the engine always reports a
positive target count). -/
def cb_progress (frame : String) (cap : ℕ) (st : PacState)
    (target : String) (percent n i : ℤ) : PacState × List Event :=
  if target.length = 0 then
    let a : PacState × List Event :=
      if percent < st.last_percent ∨ i < st.last_i then
        let a1 := emitLog frame cap (st, [])
          "info" (.str ("Progress (" ++ toString n ++ " targets)"))
        ({ a1.1 with last_i := 0 }, a1.2)
      else (st, [])
    let b := emitLog frame cap a "target" (.str "Checking and loading packages...")
    let c := emitLog frame cap b "percent" (.num ((percent : ℚ) / 100))
    ({ c.1 with last_i := i, last_percent := percent }, c.2)
  else
    let d : PacState × List Event :=
      if some target ≠ st.last_target ∨ percent < st.last_percent then
        let d0 : PacState × List Event :=
          ({ st with last_target := some target, last_percent := 0 }, [])
        let d1 := emitLog frame cap d0 "target"
          (.str ("Installing " ++ target ++ " (" ++ toString i ++ "/" ++ toString n ++ ")"))
        let d2 := emitLog frame cap d1 "percent" (.num ((percent : ℚ) / 100))
        emitLog frame cap d2 "global_percent" (.num ((i : ℚ) / (n : ℚ)))
      else (st, [])
    ({ d.1 with last_percent := percent }, d.2)

/-- The text `_("Download %s: %d/%d" % (filename, tx, total))` (lines 302 and 314). -/
def dlText (filename : String) (tx total : ℤ) : String :=
  "Download " ++ filename ++ ": " ++ toString tx ++ "/" ++ toString total

/-- The progress computation of `cb_dl` (lines 305-310), reading
`self.last_dl_total`.  Python `//` on integers is floor division, hence
`Int.fdiv`.  The unknown-size branch `int(math.log(1 + tx / 1024) ** 2 / 2)`
is a floating-point heuristic, abstracted into the parameter `hfun`; the
`none` arm would raise `TypeError` in Python (`None > 0`) and is unreachable
because the new-file branch always sets `last_dl_total` first. -/
def computeDlProgress (hfun : ℤ → ℤ) (lastTotal : Option ℤ) (tx : ℤ) : ℤ :=
  match lastTotal with
  | some t => if 0 < t then Int.fdiv (tx * 25) t else hfun tx
  | none => 0

/-- Model of `Pac.cb_dl` (lines 296-316): new-file detection (reset the download
trackers and announce the file), progress computation, and the
monotonic-increase gate (`if progress > self.last_dl_progress`).  Returns
the updated state and the logged `queue_event` calls. -/
def cb_dl (hfun : ℤ → ℤ) (frame : String) (cap : ℕ) (st : PacState)
    (filename : String) (tx total : ℤ) : PacState × List Event :=
  let p0 : PacState × List Event :=
    if some filename ≠ st.last_dl_filename ∨ st.last_dl_total ≠ some total then
      let stA := { st with last_dl_filename := some filename,
                           last_dl_total := some total,
                           last_dl_progress := 0 }
      emitLog frame cap (stA, []) "action" (.str (dlText filename tx total))
    else (st, [])
  let progress := computeDlProgress hfun p0.1.last_dl_total tx
  if progress > p0.1.last_dl_progress then
    let stB := { p0.1 with last_dl_progress := progress }
    let q1 := emitLog frame cap (stB, p0.2) "action" (.str (dlText filename tx total))
    emitLog frame cap q1 "percent" (.num (progress : ℚ))
  else p0

/-- What `t.prepare()` / `t.commit()` do when called: succeed, or raise the
engine-level `pyalpm.error`. -/
inductive TxnOutcome where
  | success
  | pyalpmError
  deriving DecidableEq, Repr

/-- A transaction handle, characterised by how its `prepare` and `commit`
calls behave. -/
structure Transaction where
  prepareOutcome : TxnOutcome
  commitOutcome : TxnOutcome
  deriving DecidableEq, Repr

/-- A call made on the transaction handle, recorded in order. -/
inductive TxnCall where
  | prepareCall
  | commitCall
  | releaseCall
  deriving DecidableEq, Repr

/-- Model of `Pac.finalize` (lines 73-83): `try: t.prepare(); t.commit()
except pyalpm.error: t.release(); return False` then `t.release();
return True`.  Returns the Python return value together with the ordered
trace of calls made on the handle.  If `prepare` raises, `commit` is never
reached; on every path `release` is the final call. -/
def finalize (t : Transaction) : Bool × List TxnCall :=
  match t.prepareOutcome with
  | .pyalpmError => (false, [.prepareCall, .releaseCall])
  | .success =>
    match t.commitOutcome with
    | .pyalpmError => (false, [.prepareCall, .commitCall, .releaseCall])
    | .success => (true, [.prepareCall, .commitCall, .releaseCall])

/-- A sync database: its registration name, the package names `get_pkg`
finds in it, and its group records (`read_grp`). -/
structure Db where
  name : String
  pkgs : List String
  groups : List (String × List String)
  deriving DecidableEq, Repr

/-- The alpm handle: an ordered list of registered sync databases
(`handle.get_syncdbs()`). -/
structure Handle where
  syncdbs : List Db
  deriving DecidableEq, Repr

/-- Python `db.get_pkg(pkgname)`: the package (identified by its name) when the
database holds it. -/
def Db.get_pkg (db : Db) (pkgname : String) : Option String :=
  if db.pkgs.contains pkgname then some pkgname else none

/-- Python `repo.read_grp(group)`: the `(name, pkgs)` pair of the group record,
or `None`. -/
def Db.read_grp (db : Db) (group : String) : Option (String × List String) :=
  db.groups.find? (fun g => g.1 == group)

/-- Model of `Pac.find_sync_package` (lines 156-162): scan the databases in order,
return the first `get_pkg` hit.  The source returns `(True, pkg)` on a hit
and `(False, "package '...' was not found")` on a miss; the `Option` models
the boolean, the miss message being only logged by the caller. -/
def find_sync_package (pkgname : String) (syncdbs : List Db) : Option String :=
  match syncdbs with
  | [] => none
  | db :: rest =>
    match db.get_pkg pkgname with
    | some pkg => some pkg
    | none => find_sync_package pkgname rest

/-- The loop of `get_group_pkgs` (lines 166-173): first repo whose
`read_grp` is not `None` wins; its member list is returned. -/
def readGrpFirst : List Db → String → Option (List String)
  | [], _ => none
  | repo :: rest, group =>
    match repo.read_grp group with
    | some g => some g.2
    | none => readGrpFirst rest group

/-- The loop of `get_group_pkgs` against a given handle. -/
def get_group_pkgs_with (h : Handle) (group : String) : Option (List String) :=
  readGrpFirst h.syncdbs group

/-- A Python exception escaping an operation. -/
inductive PyExc where
  | nameError (var : String)
  deriving DecidableEq, Repr

/-- The bare name `handle` read at lines 124 and 166.  The module `pac.py`
defines no global `handle` (the handle lives in `self.handle`), so the read
resolves to nothing and raises `NameError` at run time. -/
def globalHandle : Option Handle := none

/-- Model of `Pac.get_group_pkgs` (lines 164-173): iterates `handle.get_syncdbs()`
where `handle` is the undefined bare global, so every call raises
`NameError`. -/
def get_group_pkgs (group : String) : Except PyExc (Option (List String)) :=
  match globalHandle with
  | none => .error (.nameError "handle")
  | some h => .ok (get_group_pkgs_with h group)

/-- One assignment `repos[db.name] = db` of the dict comprehension at line
124: Python dict assignment replaces an existing binding in place and
otherwise appends in insertion order. -/
def dictInsert (acc : List Db) (db : Db) : List Db :=
  if acc.any (fun d => d.name == db.name)
  then acc.map (fun d => if d.name == db.name then db else d)
  else acc ++ [db]

/-- Line 124, `repos = dict((db.name, db) for db in handle.get_syncdbs())`;
`find_sync_package` then iterates `repos.values()` in this order. -/
def buildRepos (dbs : List Db) : List Db :=
  dbs.foldl dictInsert []

/-- The target-accumulation loop of `do_install` (lines 126-145): a name
resolving as a package is appended; otherwise its group members are
appended, skipping those in `conflicts`; a name that is neither is only
logged.  Group lookup iterates the handle's databases directly (line 166),
not `repos`. -/
def installLoop (repos : List Db) (h : Handle) (conflicts : List String) :
    List String → List String
  | [] => []
  | name :: rest =>
    match find_sync_package name repos with
    | some pkg => pkg :: installLoop repos h conflicts rest
    | none =>
      match get_group_pkgs_with h name with
      | some group_pkgs =>
          group_pkgs.filter (fun p => ! conflicts.contains p)
            ++ installLoop repos h conflicts rest
      | none => installLoop repos h conflicts rest

set_option linter.unusedVariables false in
/-- Model of `Pac.do_install` (lines 117-154).  `selfHandle` is `self.handle` (used
by `init_transaction` on the path that would open a transaction) and `t` is
the transaction `init_transaction` would return.  Line 124 reads the bare
global `handle`, which is undefined, so every run past the empty-list guard
raises `NameError` — modelled by the `globalHandle` match.  The result is
the Python outcome (exit code, or the escaping exception) together with the
trace of calls made on the transaction handle. -/
def do_install (selfHandle : Handle) (t : Transaction)
    (pkgs : List String) (conflicts : List String) :
    Except PyExc ℤ × List TxnCall :=
  if pkgs.length = 0 then (.ok 1, [])
  else
    match globalHandle with
    | none => (.error (.nameError "handle"), [])
    | some h =>
      let repos := buildRepos h.syncdbs
      let targets := installLoop repos h conflicts pkgs
      if targets.length = 0 then (.ok 1, [])
      else
        let fin := finalize t
        (.ok (if fin.1 then 0 else 1), fin.2)

/-- The synchronisation invariant between the dedup map and the queue that
holds while no push has ever been dropped: for every non-`error` type, the
map records exactly the text of the last queued event of that type (or
nothing, when none was ever queued); no `error` event is recorded or queued
while the producer is still running (an `error` push exits at once). -/
def DedupSync (st : PacState) : Prop :=
  (∀ ty, ty ≠ "error" →
    (lookupEv st.last_event ty = none ∧ typeTexts st.queue ty = []) ∨
    (∃ x, lookupEv st.last_event ty = some x ∧ (typeTexts st.queue ty).getLast? = some x)) ∧
  lookupEv st.last_event "error" = none ∧
  typeTexts st.queue "error" = []

/-- A producer state in which an `error` event with text `"boom"` has
already been recorded in the dedup map. -/
def errDupState : PacState :=
  { initState with last_event := [("error", .str "boom")] }

/-- A demo database layout: one repository, no plain packages, one group
`basegroup` with members `A`, `B`, `C`. -/
def demoDbs : List Db :=
  [{ name := "repo1", pkgs := [], groups := [("basegroup", ["A", "B", "C"])] }]

/-- The demo handle over `demoDbs`. -/
def demoHandle : Handle := { syncdbs := demoDbs }

/-- A transaction whose `prepare` and `commit` both succeed. -/
def demoTxn : Transaction :=
  { prepareOutcome := .success, commitOutcome := .success }

/-- Per-target progress scenario, sample 1: `cb_progress("pkgA", 0, 1, 1)`
from the initial state. -/
def progSample1 : PacState × List Event :=
  cb_progress "cb" 1000 initState "pkgA" 0 1 1

/-- Sample 2: `cb_progress("pkgA", 10, 1, 1)` after sample 1. -/
def progSample2 : PacState × List Event :=
  cb_progress "cb" 1000 progSample1.1 "pkgA" 10 1 1

/-- Sample 3: `cb_progress("pkgA", 5, 1, 1)` after sample 2. -/
def progSample3 : PacState × List Event :=
  cb_progress "cb" 1000 progSample2.1 "pkgA" 5 1 1

/-- Sample 4: `cb_progress("pkgA", 80, 1, 1)` after sample 3. -/
def progSample4 : PacState × List Event :=
  cb_progress "cb" 1000 progSample3.1 "pkgA" 80 1 1

/-- The last recorded download progress value the `cb_dl` gate compares
against: `0` right after a new-file reset, otherwise the tracked
`last_dl_progress`. -/
def dlBase (st : PacState) (filename : String) (total : ℤ) : ℤ :=
  if some filename ≠ st.last_dl_filename ∨ st.last_dl_total ≠ some total then 0
  else st.last_dl_progress

theorem lookupEv_setEv_self (m : List (String × EvPayload)) (t : String) (x : EvPayload) :
    lookupEv (setEv m t x) t = some x := by
  induction m with
  | nil => simp [setEv, lookupEv]
  | cons kv rest ih =>
    by_cases h : kv.1 = t
    · simp [setEv, lookupEv, h]
    · simp [setEv, lookupEv, h, ih]

theorem lookupEv_setEv_ne (m : List (String × EvPayload)) (t ty : String) (x : EvPayload)
    (h : ty ≠ t) : lookupEv (setEv m t x) ty = lookupEv m ty := by
  have ht : ¬ t = ty := fun hc => h hc.symm
  induction m with
  | nil => simp [setEv, lookupEv, ht]
  | cons kv rest ih =>
    by_cases hk : kv.1 = t
    · simp [setEv, lookupEv, hk, ht]
    · by_cases hk2 : kv.1 = ty <;> simp [setEv, lookupEv, hk, hk2, ih, h]

theorem typeTexts_append_single (q : List Event) (e : Event) (ty : String) :
    typeTexts (q ++ [e]) ty
      = typeTexts q ty ++ (if e.1 = ty then [e.2] else []) := by
  by_cases h : e.1 = ty <;> simp [typeTexts, List.filter_append, h]

theorem queue_event_hit (frame : String) (cap : ℕ) (st : PacState)
    (t : String) (x : EvPayload) (h : lookupEv st.last_event t = some x) :
    queue_event frame cap st t x = st := by
  simp [queue_event, h]

theorem queue_event_miss (frame : String) (cap : ℕ) (st : PacState)
    (t : String) (x : EvPayload) (h : lookupEv st.last_event t ≠ some x) :
    queue_event frame cap st t x = queue_event_push frame cap st t x := by
  unfold queue_event
  cases hl : lookupEv st.last_event t with
  | none => rfl
  | some prev =>
    have : ¬ prev = x := by rintro rfl; exact h hl
    simp [this]

theorem queue_event_push_space (frame : String) (cap : ℕ) (st : PacState)
    (t : String) (x : EvPayload) (hsp : st.queue.length < cap) :
    queue_event_push frame cap st t x
      = (if t = "error"
          then { st with last_event := setEv st.last_event t x,
                         queue := st.queue ++ [(t, pushText frame t x)],
                         joined := true, exited := some 1 }
          else { st with last_event := setEv st.last_event t x,
                         queue := st.queue ++ [(t, pushText frame t x)] }) := by
  unfold queue_event_push
  by_cases herr : t = "error" <;> simp [hsp, herr]

theorem queue_event_push_full (frame : String) (cap : ℕ) (st : PacState)
    (t : String) (x : EvPayload) (hfull : ¬ st.queue.length < cap) :
    queue_event_push frame cap st t x
      = (if t = "error"
          then { st with last_event := setEv st.last_event t x,
                         joined := true, exited := some 1 }
          else { st with last_event := setEv st.last_event t x }) := by
  unfold queue_event_push
  by_cases herr : t = "error" <;> simp [hfull, herr]

theorem queue_event_push_fields (frame : String) (cap : ℕ) (st : PacState)
    (t : String) (x : EvPayload) :
    (queue_event_push frame cap st t x).last_target = st.last_target ∧
    (queue_event_push frame cap st t x).last_percent = st.last_percent ∧
    (queue_event_push frame cap st t x).last_i = st.last_i ∧
    (queue_event_push frame cap st t x).last_dl_filename = st.last_dl_filename ∧
    (queue_event_push frame cap st t x).last_dl_progress = st.last_dl_progress ∧
    (queue_event_push frame cap st t x).last_dl_total = st.last_dl_total := by
  by_cases hsp : st.queue.length < cap
  · rw [queue_event_push_space _ _ _ _ _ hsp]
    split_ifs <;> exact ⟨rfl, rfl, rfl, rfl, rfl, rfl⟩
  · rw [queue_event_push_full _ _ _ _ _ hsp]
    split_ifs <;> exact ⟨rfl, rfl, rfl, rfl, rfl, rfl⟩

theorem queue_event_fields (frame : String) (cap : ℕ) (st : PacState)
    (t : String) (x : EvPayload) :
    (queue_event frame cap st t x).last_target = st.last_target ∧
    (queue_event frame cap st t x).last_percent = st.last_percent ∧
    (queue_event frame cap st t x).last_i = st.last_i ∧
    (queue_event frame cap st t x).last_dl_filename = st.last_dl_filename ∧
    (queue_event frame cap st t x).last_dl_progress = st.last_dl_progress ∧
    (queue_event frame cap st t x).last_dl_total = st.last_dl_total := by
  by_cases hx : lookupEv st.last_event t = some x
  · rw [queue_event_hit _ _ _ _ _ hx]
    exact ⟨rfl, rfl, rfl, rfl, rfl, rfl⟩
  · rw [queue_event_miss _ _ _ _ _ hx]
    exact queue_event_push_fields frame cap st t x

theorem queue_event_last_target (frame : String) (cap : ℕ) (st : PacState)
    (t : String) (x : EvPayload) :
    (queue_event frame cap st t x).last_target = st.last_target :=
  (queue_event_fields frame cap st t x).1

theorem queue_event_last_percent (frame : String) (cap : ℕ) (st : PacState)
    (t : String) (x : EvPayload) :
    (queue_event frame cap st t x).last_percent = st.last_percent :=
  (queue_event_fields frame cap st t x).2.1

theorem queue_event_last_i (frame : String) (cap : ℕ) (st : PacState)
    (t : String) (x : EvPayload) :
    (queue_event frame cap st t x).last_i = st.last_i :=
  (queue_event_fields frame cap st t x).2.2.1

theorem queue_event_last_dl_progress (frame : String) (cap : ℕ) (st : PacState)
    (t : String) (x : EvPayload) :
    (queue_event frame cap st t x).last_dl_progress = st.last_dl_progress :=
  (queue_event_fields frame cap st t x).2.2.2.2.1

theorem queue_event_last_dl_total (frame : String) (cap : ℕ) (st : PacState)
    (t : String) (x : EvPayload) :
    (queue_event frame cap st t x).last_dl_total = st.last_dl_total :=
  (queue_event_fields frame cap st t x).2.2.2.2.2

/-- C3: `finalize` calls `prepare` then `commit` (skipping `commit` when
`prepare` raises the engine error), releases the transaction exactly once
on both the success path and the engine-error path, and returns `true`
exactly when both calls succeed. -/
theorem finalize_releases_once (t : Transaction) :
    (finalize t).2.count .releaseCall = 1 ∧
    ((finalize t).1 = true ↔
      (t.prepareOutcome = .success ∧ t.commitOutcome = .success)) ∧
    (finalize t).2 = (if t.prepareOutcome = .pyalpmError
      then [.prepareCall, .releaseCall]
      else [.prepareCall, .commitCall, .releaseCall]) := by
  rcases t with ⟨p, c⟩
  cases p <;> cases c <;> decide

/-- C3 witness: a transaction whose `prepare` and `commit` succeed is
released exactly once and `finalize` returns `true`. -/
theorem finalize_releases_once_witness :
    (finalize demoTxn).2.count .releaseCall = 1 ∧ (finalize demoTxn).1 = true :=
  ⟨(finalize_releases_once demoTxn).1,
    ((finalize_releases_once demoTxn).2.1).mpr ⟨rfl, rfl⟩⟩

/-- C4: `do_install` with an empty package list returns exit code 1 at
once: no transaction call is made, and the result does not depend on the
handle, the transaction, or the conflicts list. -/
theorem do_install_empty (selfHandle : Handle) (t : Transaction)
    (conflicts : List String) :
    do_install selfHandle t [] conflicts = (.ok 1, []) := rfl

/-- C9: for every non-empty package list, `do_install` raises `NameError`
(line 124 reads the undefined bare global `handle`) before any package
resolution or transaction call, and `get_group_pkgs` raises the same
`NameError` for every group (line 166). -/
theorem do_install_raises_nameError (selfHandle : Handle) (t : Transaction)
    (pkgs conflicts : List String) (h : pkgs ≠ []) :
    do_install selfHandle t pkgs conflicts = (.error (.nameError "handle"), []) ∧
    (∀ g, get_group_pkgs g = .error (.nameError "handle")) := by
  constructor
  · have hlen : ¬ pkgs.length = 0 := by simpa using h
    simp [do_install, hlen, globalHandle]
  · intro g; rfl

/-- C9 witness: the concrete call `do_install(["firefox"])` raises the
`NameError` with an empty transaction trace. -/
theorem do_install_raises_nameError_witness :
    (["firefox"] : List String) ≠ [] ∧
    do_install demoHandle demoTxn ["firefox"] [] = (.error (.nameError "handle"), []) :=
  ⟨by decide,
    (do_install_raises_nameError demoHandle demoTxn ["firefox"] [] (by decide)).1⟩

/-- C5: on the demo layout (`basegroup` → {A, B, C}, conflicts = {B}) the
call `do_install(["basegroup"], ["B"])` raises `NameError` at line 124 and
never resolves anything, while the accumulation logic the spec describes
(the loop of lines 126-145 run against the handle's databases) would
collect exactly `[A, C]`: every member not in the conflicts set, and no
member in it. -/
theorem do_install_basegroup :
    do_install demoHandle demoTxn ["basegroup"] ["B"] = (.error (.nameError "handle"), []) ∧
    installLoop (buildRepos demoDbs) demoHandle ["B"] ["basegroup"] = ["A", "C"] :=
  ⟨rfl, rfl⟩

/-- C2, counterexample: an `error` emit does not always terminate the
producer.  From a state whose dedup map already records `error → "boom"`,
`queue_event("error", "boom")` returns through the deduplication gate at
line 182, before the error special case: nothing is pushed, the queue is
not joined, and the process does not exit. -/
theorem queue_event_error_suppressed :
    (queue_event "frame0" 16 errDupState "error" (.str "boom")).exited = none ∧
    (queue_event "frame0" 16 errDupState "error" (.str "boom")).joined = false ∧
    (queue_event "frame0" 16 errDupState "error" (.str "boom")).queue = [] := by
  decide

/-- C2, amended: for every `error` emit whose text is not suppressed by the
deduplication gate, the producer joins the queue (blocking until it is
drained) and exits with status 1; whenever the queue has free space the
augmented error event is pushed before the join, so it is flushed before
termination (on a full queue it is silently dropped, but the join and the
exit still happen). -/
theorem queue_event_error_exits (frame : String) (cap : ℕ) (st : PacState)
    (x : EvPayload) (h : lookupEv st.last_event "error" ≠ some x) :
    (queue_event frame cap st "error" x).joined = true ∧
    (queue_event frame cap st "error" x).exited = some 1 ∧
    (st.queue.length < cap →
      (queue_event frame cap st "error" x).queue
        = st.queue ++ [("error", .str (payloadStr x ++ ": " ++ frame))]) := by
  rw [queue_event_miss _ _ _ _ _ h]
  by_cases hsp : st.queue.length < cap
  · rw [queue_event_push_space _ _ _ _ _ hsp, if_pos rfl]
    exact ⟨rfl, rfl, fun _ => by simp [pushText]⟩
  · rw [queue_event_push_full _ _ _ _ _ hsp, if_pos rfl]
    exact ⟨rfl, rfl, fun hc => absurd hc hsp⟩

/-- C2 witness: from the pristine state a fresh `error` emit joins the
queue, exits with status 1, and pushes the augmented event. -/
theorem queue_event_error_exits_witness :
    lookupEv initState.last_event "error" ≠ some (.str "fatal") ∧
    initState.queue.length < 4 ∧
    (queue_event "f" 4 initState "error" (.str "fatal")).joined = true ∧
    (queue_event "f" 4 initState "error" (.str "fatal")).exited = some 1 ∧
    (queue_event "f" 4 initState "error" (.str "fatal")).queue
      = [("error", .str ("fatal: f"))] := by
  refine ⟨by decide, by decide, ?_, ?_, ?_⟩
  · exact (queue_event_error_exits "f" 4 initState (.str "fatal") (by decide)).1
  · exact (queue_event_error_exits "f" 4 initState (.str "fatal") (by decide)).2.1
  · have := (queue_event_error_exits "f" 4 initState (.str "fatal") (by decide)).2.2
      (by decide)
    simpa using this

/-- C10: `queue_event` records the text in the dedup map before attempting
the push, so when the push is dropped because the queue is full the state
still records the text as last seen: the queue is unchanged, the map is
updated, and an immediately following identical call returns without
emitting anything — the dropped event is never retried. -/
theorem queue_event_full_drop (frame : String) (cap : ℕ) (st : PacState)
    (t : String) (x : EvPayload)
    (hfull : ¬ st.queue.length < cap)
    (h : lookupEv st.last_event t ≠ some x) :
    (queue_event frame cap st t x).queue = st.queue ∧
    (queue_event frame cap st t x).last_event = setEv st.last_event t x ∧
    queue_event frame cap (queue_event frame cap st t x) t x
      = queue_event frame cap st t x := by
  rw [queue_event_miss _ _ _ _ _ h, queue_event_push_full _ _ _ _ _ hfull]
  by_cases herr : t = "error"
  · rw [if_pos herr]
    exact ⟨rfl, rfl, queue_event_hit _ _ _ _ _ (lookupEv_setEv_self _ _ _)⟩
  · rw [if_neg herr]
    exact ⟨rfl, rfl, queue_event_hit _ _ _ _ _ (lookupEv_setEv_self _ _ _)⟩

/-- C10 witness: with capacity 0 every push is dropped; after an `action`
emit from the pristine state the queue stays empty, the map records the
text, and the identical follow-up emit is a no-op. -/
theorem queue_event_full_drop_witness :
    ¬ initState.queue.length < 0 ∧
    lookupEv initState.last_event "action" ≠ some (.str "hi") ∧
    (queue_event "f" 0 initState "action" (.str "hi")).queue = [] ∧
    queue_event "f" 0 (queue_event "f" 0 initState "action" (.str "hi")) "action" (.str "hi")
      = queue_event "f" 0 initState "action" (.str "hi") := by
  refine ⟨by decide, by decide, ?_, ?_⟩
  · exact (queue_event_full_drop "f" 0 initState "action" (.str "hi")
      (by decide) (by decide)).1
  · exact (queue_event_full_drop "f" 0 initState "action" (.str "hi")
      (by decide) (by decide)).2.2

theorem cb_progress_sets_last_percent (frame : String) (cap : ℕ) (st : PacState)
    (target : String) (percent n i : ℤ) :
    (cb_progress frame cap st target percent n i).1.last_percent = percent := by
  unfold cb_progress
  by_cases ht : target.length = 0 <;> simp [ht]

theorem cb_progress_branch_taken (frame : String) (cap : ℕ) (st : PacState)
    (target : String) (percent n i : ℤ) (ht : ¬ target.length = 0)
    (hbr : some target ≠ st.last_target ∨ percent < st.last_percent) :
    (cb_progress frame cap st target percent n i).2
      = [("target", .str ("Installing " ++ target ++ " ("
            ++ toString i ++ "/" ++ toString n ++ ")")),
         ("percent", .num ((percent : ℚ) / 100)),
         ("global_percent", .num ((i : ℚ) / (n : ℚ)))] ∧
    (cb_progress frame cap st target percent n i).1.last_target = some target ∧
    (cb_progress frame cap st target percent n i).1.last_percent = percent := by
  unfold cb_progress
  rw [if_neg ht, if_pos hbr]
  refine ⟨by simp [emitLog], ?_, rfl⟩
  simp [emitLog, queue_event_last_target]

theorem cb_progress_branch_skipped (frame : String) (cap : ℕ) (st : PacState)
    (target : String) (percent n i : ℤ) (ht : ¬ target.length = 0)
    (hbr : ¬ (some target ≠ st.last_target ∨ percent < st.last_percent)) :
    (cb_progress frame cap st target percent n i).2 = [] ∧
    (cb_progress frame cap st target percent n i).1.last_target = st.last_target ∧
    (cb_progress frame cap st target percent n i).1.last_percent = percent := by
  unfold cb_progress
  rw [if_neg ht, if_neg hbr]
  exact ⟨rfl, rfl, rfl⟩

/-- C6: feeding `cb_progress` the per-target samples `"pkgA"` with percents
[0, 10, 5, 80] from the initial state, the first sample (new target) and
the third (5 < 10) take the new-target branch — the percent baseline is
reset and a fresh `target` event is emitted together with `percent` and
`global_percent` — while the second and fourth samples take no reset and
emit nothing; and in every call (either mode) the tracked `last_percent`
ends up equal to the sample's percent. -/
theorem cb_progress_target_reset :
    (∀ frame cap st target percent n i,
      (cb_progress frame cap st target percent n i).1.last_percent = percent) ∧
    progSample1.2 = [("target", .str "Installing pkgA (1/1)"),
                     ("percent", .num 0), ("global_percent", .num 1)] ∧
    progSample2.2 = [] ∧
    progSample3.2 = [("target", .str "Installing pkgA (1/1)"),
                     ("percent", .num (1 / 20)), ("global_percent", .num 1)] ∧
    progSample4.2 = [] ∧
    progSample1.1.last_percent = 0 ∧ progSample2.1.last_percent = 10 ∧
    progSample3.1.last_percent = 5 ∧ progSample4.1.last_percent = 80 := by
  have ht : ¬ ("pkgA" : String).length = 0 := by decide
  have hs : ("Installing " ++ "pkgA" ++ " ("
      ++ toString (1 : ℤ) ++ "/" ++ toString (1 : ℤ) ++ ")") = "Installing pkgA (1/1)" := by
    decide
  have h1 := cb_progress_branch_taken "cb" 1000 initState "pkgA" 0 1 1 ht
    (Or.inl (by decide))
  rw [show cb_progress "cb" 1000 initState "pkgA" 0 1 1 = progSample1 from rfl] at h1
  have h2 := cb_progress_branch_skipped "cb" 1000 progSample1.1 "pkgA" 10 1 1 ht
    (by
      push_neg
      refine ⟨h1.2.1.symm, ?_⟩
      rw [h1.2.2]
      decide)
  rw [show cb_progress "cb" 1000 progSample1.1 "pkgA" 10 1 1 = progSample2 from rfl] at h2
  have h3 := cb_progress_branch_taken "cb" 1000 progSample2.1 "pkgA" 5 1 1 ht
    (Or.inr (by rw [h2.2.2]; decide))
  rw [show cb_progress "cb" 1000 progSample2.1 "pkgA" 5 1 1 = progSample3 from rfl] at h3
  have h4 := cb_progress_branch_skipped "cb" 1000 progSample3.1 "pkgA" 80 1 1 ht
    (by
      push_neg
      refine ⟨h3.2.1.symm, ?_⟩
      rw [h3.2.2]
      decide)
  rw [show cb_progress "cb" 1000 progSample3.1 "pkgA" 80 1 1 = progSample4 from rfl] at h4
  refine ⟨cb_progress_sets_last_percent, ?_, h2.1, ?_, h4.1,
    h1.2.2, h2.2.2, h3.2.2, h4.2.2⟩
  · rw [h1.1, hs]
    norm_num
  · rw [h3.1, hs]
    norm_num

/-- C7: when the total is known and positive and transferred lies in
[0, total], the download progress `cb_dl` computes (lines 306-307) equals
⌊transferred·25/total⌋, lies in the integer range [0, 25], and with the
total fixed is non-decreasing as transferred increases. -/
theorem computeDlProgress_bounds (hfun : ℤ → ℤ) (tx total : ℤ)
    (htot : 0 < total) (h0 : 0 ≤ tx) (h1 : tx ≤ total) :
    computeDlProgress hfun (some total) tx = ⌊((tx * 25 : ℤ) : ℚ) / ((total : ℤ) : ℚ)⌋ ∧
    0 ≤ computeDlProgress hfun (some total) tx ∧
    computeDlProgress hfun (some total) tx ≤ 25 ∧
    (∀ tx2, tx ≤ tx2 → tx2 ≤ total →
      computeDlProgress hfun (some total) tx ≤ computeDlProgress hfun (some total) tx2) := by
  have hdef : ∀ a : ℤ, computeDlProgress hfun (some total) a = Int.fdiv (a * 25) total := by
    intro a; simp [computeDlProgress, htot]
  refine ⟨?_, ?_, ?_, ?_⟩
  · rw [hdef, Int.fdiv_eq_ediv _ (le_of_lt htot)]
    rw [show ((total : ℤ) : ℚ) = ((total.toNat : ℕ) : ℚ) from by
      exact_mod_cast congrArg (fun z : ℤ => (z : ℚ)) (Int.toNat_of_nonneg (le_of_lt htot)).symm]
    rw [Rat.floor_intCast_div_natCast, Int.toNat_of_nonneg (le_of_lt htot)]
  · rw [hdef]
    exact Int.fdiv_nonneg (by nlinarith) (le_of_lt htot)
  · rw [hdef, Int.fdiv_eq_ediv _ (le_of_lt htot)]
    calc tx * 25 / total ≤ total * 25 / total := Int.ediv_le_ediv htot (by nlinarith)
    _ = 25 := Int.mul_ediv_cancel_left _ (by omega)
  · intro tx2 ha hb
    rw [hdef, hdef, Int.fdiv_eq_ediv _ (le_of_lt htot), Int.fdiv_eq_ediv _ (le_of_lt htot)]
    exact Int.ediv_le_ediv htot (by nlinarith)

/-- C7 witness: total = 10, transferred = 7 gives progress 17 ∈ [0, 25],
and increasing transferred to 9 does not decrease it. -/
theorem computeDlProgress_bounds_witness :
    (0 : ℤ) < 10 ∧ (0 : ℤ) ≤ 7 ∧ (7 : ℤ) ≤ 10 ∧
    computeDlProgress (fun _ => 0) (some 10) 7 = 17 ∧
    0 ≤ computeDlProgress (fun _ => 0) (some 10) 7 ∧
    computeDlProgress (fun _ => 0) (some 10) 7 ≤ 25 ∧
    computeDlProgress (fun _ => 0) (some 10) 7 ≤ computeDlProgress (fun _ => 0) (some 10) 9 := by
  have h := computeDlProgress_bounds (fun _ => 0) 7 10 (by decide) (by decide) (by decide)
  exact ⟨by decide, by decide, by decide, by decide, h.2.1, h.2.2.1,
    h.2.2.2 9 (by decide) (by decide)⟩

/-- C8: a `cb_dl` sample's emissions are exactly the optional new-file
announcement followed by the gated pair — the repeated `action` description
and `percent` = computed progress — and the gated pair is emitted if and
only if the computed progress strictly exceeds the last recorded progress
value (0 right after a new-file reset), in which case the recorded value is
updated to the computed progress; otherwise it is left at the baseline and
the sample produces no progress event. -/
theorem cb_dl_monotonic_gate (hfun : ℤ → ℤ) (frame : String) (cap : ℕ)
    (st : PacState) (filename : String) (tx total : ℤ) :
    (cb_dl hfun frame cap st filename tx total).2
      = (if some filename ≠ st.last_dl_filename ∨ st.last_dl_total ≠ some total
         then [("action", .str (dlText filename tx total))] else [])
        ++ (if dlBase st filename total < computeDlProgress hfun (some total) tx
            then [("action", .str (dlText filename tx total)),
                  ("percent", .num ((computeDlProgress hfun (some total) tx : ℤ) : ℚ))]
            else []) ∧
    (cb_dl hfun frame cap st filename tx total).1.last_dl_progress
      = (if dlBase st filename total < computeDlProgress hfun (some total) tx
         then computeDlProgress hfun (some total) tx
         else dlBase st filename total) := by
  by_cases hnew : some filename ≠ st.last_dl_filename ∨ st.last_dl_total ≠ some total
  · have hbase : dlBase st filename total = 0 := by simp [dlBase, hnew]
    rw [hbase]
    unfold cb_dl
    rw [if_pos hnew, if_pos hnew]
    simp only [emitLog, queue_event_last_dl_total, queue_event_last_dl_progress]
    by_cases hg : 0 < computeDlProgress hfun (some total) tx
    · simp [hg, queue_event_last_dl_progress]
    · simp [hg, queue_event_last_dl_progress]
  · have hfile : st.last_dl_total = some total := by
      by_contra hc
      exact hnew (Or.inr hc)
    have hbase : dlBase st filename total = st.last_dl_progress := by
      simp [dlBase, hnew]
    rw [hbase]
    unfold cb_dl
    rw [if_neg hnew, if_neg hnew]
    simp only [emitLog, queue_event_last_dl_total, queue_event_last_dl_progress, hfile]
    by_cases hg : st.last_dl_progress < computeDlProgress hfun (some total) tx
    · simp [hg, queue_event_last_dl_progress]
    · simp [hg, queue_event_last_dl_progress]

theorem runEvents_of_exited (frame : String) (cap : ℕ) (st : PacState)
    (evs : List Event) (h : st.exited.isSome = true) :
    runEvents frame cap st evs = st := by
  cases evs with
  | nil => rfl
  | cons e rest =>
    rcases e with ⟨t, x⟩
    simp [runEvents, h]

theorem dedupSync_initState : DedupSync initState :=
  ⟨fun _ _ => Or.inl ⟨rfl, rfl⟩, rfl, rfl⟩

theorem runEvents_cons (frame : String) (cap : ℕ) (st : PacState) (t : String)
    (x : EvPayload) (rest : List Event) :
    runEvents frame cap st ((t, x) :: rest)
      = if st.exited.isSome = true then st
        else runEvents frame cap (queue_event frame cap st t x) rest := rfl

theorem run_chain_aux (frame : String) (cap : ℕ) :
    ∀ (evs : List Event) (st : PacState),
      st.exited = none → DedupSync st →
      (∀ ty, List.Chain' (fun a b => a ≠ b) (typeTexts st.queue ty)) →
      st.queue.length + evs.length ≤ cap →
      ∀ ty, List.Chain' (fun a b => a ≠ b)
        (typeTexts (runEvents frame cap st evs).queue ty) := by
  intro evs
  induction evs with
  | nil =>
    intro st _ _ hchain _ ty
    simpa [runEvents] using hchain ty
  | cons e rest ih =>
    rcases e with ⟨t, x⟩
    intro st hlive hsync hchain hlen
    simp only [List.length_cons] at hlen
    have hnotsome : st.exited.isSome = false := by rw [hlive]; rfl
    simp only [runEvents, hnotsome, Bool.false_eq_true, if_false]
    by_cases hx : lookupEv st.last_event t = some x
    · rw [queue_event_hit _ _ _ _ _ hx]
      exact ih st hlive hsync hchain (by omega)
    · have hsp : st.queue.length < cap := by omega
      rw [queue_event_miss _ _ _ _ _ hx, queue_event_push_space _ _ _ _ _ hsp]
      by_cases herr : t = "error"
      · subst herr
        rw [if_pos rfl]
        rw [runEvents_of_exited _ _ _ _ (by rfl)]
        intro ty
        show List.Chain' _ (typeTexts (st.queue ++ [("error", pushText frame "error" x)]) ty)
        rw [typeTexts_append_single]
        by_cases hty : ("error" : String) = ty
        · rw [if_pos hty, ← hty, hsync.2.2]
          simp
        · rw [if_neg hty]
          simpa using hchain ty
      · rw [if_neg herr]
        have hpx : pushText frame t x = x := by simp [pushText, herr]
        rw [hpx]
        apply ih
        · show st.exited = none
          exact hlive
        · refine ⟨?_, ?_, ?_⟩
          · intro ty hty_ne
            by_cases hty : ty = t
            · subst hty
              refine Or.inr ⟨x, lookupEv_setEv_self _ _ _, ?_⟩
              show ((typeTexts (st.queue ++ [(ty, x)]) ty)).getLast? = some x
              rw [typeTexts_append_single, if_pos rfl, List.getLast?_concat]
            · have hty' : ¬ (t = ty) := fun hc => hty hc.symm
              show (lookupEv (setEv st.last_event t x) ty = none ∧
                  typeTexts (st.queue ++ [(t, x)]) ty = []) ∨ _
              rw [lookupEv_setEv_ne _ _ _ _ hty, typeTexts_append_single, if_neg hty',
                List.append_nil]
              exact hsync.1 ty hty_ne
          · show lookupEv (setEv st.last_event t x) "error" = none
            rw [lookupEv_setEv_ne _ _ _ _ (fun hc => herr hc.symm)]
            exact hsync.2.1
          · show typeTexts (st.queue ++ [(t, x)]) "error" = []
            rw [typeTexts_append_single, if_neg herr, List.append_nil]
            exact hsync.2.2
        · intro ty
          show List.Chain' _ (typeTexts (st.queue ++ [(t, x)]) ty)
          rw [typeTexts_append_single]
          by_cases hty : t = ty
          · subst hty
            rw [if_pos rfl]
            rcases hsync.1 t herr with ⟨_, hq⟩ | ⟨y, hly, hgl⟩
            · rw [hq]
              simp
            · rw [List.chain'_append]
              refine ⟨hchain t, List.chain'_singleton _, ?_⟩
              intro a ha b hb
              rw [hgl, Option.mem_def, Option.some.injEq] at ha
              rw [List.head?_cons, Option.mem_def, Option.some.injEq] at hb
              rw [← ha, ← hb]
              intro hyx
              exact hx (by rw [hly, hyx])
          · rw [if_neg hty]
            simpa using hchain ty
        · show (st.queue ++ [(t, x)]).length + rest.length ≤ cap
          simp only [List.length_append, List.length_singleton]
          omega

/-- C1: `queue_event` deduplicates: when the dedup map already records the
type with the same text, the call returns with the state untouched and
nothing pushed; otherwise it records the new text and pushes the event
(with the `error` augmentation applied to the pushed text).  Consequently
emitting the same (type, text) pair twice in a row, with room in the queue,
grows the queue by exactly one event, and in any run from the initial state
in which no push is dropped, no two consecutive delivered events of the
same type carry identical text. -/
theorem queue_event_dedup (frame : String) (cap : ℕ) :
    (∀ st t x, lookupEv st.last_event t = some x →
      queue_event frame cap st t x = st) ∧
    (∀ st t x, lookupEv st.last_event t ≠ some x →
      (queue_event frame cap st t x).last_event = setEv st.last_event t x ∧
      (st.queue.length < cap →
        (queue_event frame cap st t x).queue = st.queue ++ [(t, pushText frame t x)])) ∧
    (∀ st t x, st.exited = none → lookupEv st.last_event t ≠ some x →
      st.queue.length < cap →
      (runEvents frame cap st [(t, x), (t, x)]).queue.length = st.queue.length + 1) ∧
    (∀ evs : List Event, evs.length ≤ cap → ∀ ty,
      List.Chain' (fun a b => a ≠ b)
        (typeTexts (runEvents frame cap initState evs).queue ty)) := by
  refine ⟨?_, ?_, ?_, ?_⟩
  · intro st t x hx
    exact queue_event_hit frame cap st t x hx
  · intro st t x hx
    rw [queue_event_miss _ _ _ _ _ hx]
    by_cases hsp : st.queue.length < cap
    · rw [queue_event_push_space _ _ _ _ _ hsp]
      by_cases herr : t = "error"
      · rw [if_pos herr]
        exact ⟨rfl, fun _ => rfl⟩
      · rw [if_neg herr]
        exact ⟨rfl, fun _ => rfl⟩
    · rw [queue_event_push_full _ _ _ _ _ hsp]
      by_cases herr : t = "error"
      · rw [if_pos herr]
        exact ⟨rfl, fun hc => absurd hc hsp⟩
      · rw [if_neg herr]
        exact ⟨rfl, fun hc => absurd hc hsp⟩
  · intro st t x hlive hx hsp
    have hnotsome : st.exited.isSome = false := by rw [hlive]; rfl
    rw [runEvents_cons, if_neg (by rw [hnotsome]; exact Bool.false_ne_true)]
    rw [queue_event_miss _ _ _ _ _ hx, queue_event_push_space _ _ _ _ _ hsp]
    by_cases herr : t = "error"
    · subst herr
      rw [if_pos rfl]
      rw [runEvents_of_exited _ _ _ _ (by rfl)]
      simp
    · rw [if_neg herr]
      have h2 : lookupEv (setEv st.last_event t x) t = some x := lookupEv_setEv_self _ _ _
      have hnotsome2 :
          ({ st with last_event := setEv st.last_event t x,
                     queue := st.queue ++ [(t, pushText frame t x)] } : PacState).exited.isSome
            = false := by
        show st.exited.isSome = false
        exact hnotsome
      rw [runEvents_cons, if_neg (by rw [hnotsome2]; exact Bool.false_ne_true)]
      rw [queue_event_hit _ _ _ _ _ h2]
      simp [runEvents]
  · intro evs hle ty
    refine run_chain_aux frame cap evs initState rfl dedupSync_initState
      (fun ty2 => ?_) (by simpa [initState] using hle) ty
    show List.Chain' _ (typeTexts [] ty2)
    exact List.chain'_nil

/-- C1 witness: from the pristine state, emitting `("action", "hi")` twice
in a row with room in the queue grows the queue by exactly one event. -/
theorem queue_event_dedup_witness :
    initState.exited = none ∧
    lookupEv initState.last_event "action" ≠ some (.str "hi") ∧
    initState.queue.length < 8 ∧
    (runEvents "f" 8 initState [("action", .str "hi"), ("action", .str "hi")]).queue.length
      = initState.queue.length + 1 := by
  refine ⟨rfl, by decide, by decide, ?_⟩
  exact (queue_event_dedup "f" 8).2.2.1 initState "action" (.str "hi") rfl
    (by decide) (by decide)

end Cnchi
